import Mathlib

/-!
# Verification of the puzzle-solving engine of `scripts/play-games.py`

Shallow embedding of the four puzzle solvers (`solve_math`, `solve_word`,
`solve_logic`, `solve_trivia`) and the dispatcher `solve_puzzle`.

Modelling conventions:
* Python `float` values are modelled as exact rationals (`ℚ`); the source
  only builds floats from decimal literals and the four arithmetic
  operations.
* A Python exception (ZeroDivisionError in `val /= right`, IndexError in
  `tokens[pos]`, ValueError in `float(...)`) is modelled as `none` of an
  `Option` result; `solve_math`'s bare `except` turns `none` into `"0"`.
* Strings are processed as `List Char`; Python's Unicode-aware character
  classes (`\d`, `\s`, `\w`, `str.isdigit`, `str.isspace`, `str.upper`)
  are modelled by their ASCII behaviour, which is exact on every input the
  claims are about.
-/

/-- Python `str.isspace` / regex `\s` on ASCII characters. -/
def pyIsSpace (c : Char) : Bool :=
  c = ' ' || c = '\t' || c = '\n' || c = '\x0d' || c = '\x0b' || c = '\x0c'

/-- Characters that the tokenizer groups into a number run:
`expr[j].isdigit() or expr[j] == '.'`. -/
def isDigitDot (c : Char) : Bool := c.isDigit || c = '.'

theorem length_dropWhile_le (p : α → Bool) :
    ∀ l : List α, (l.dropWhile p).length ≤ l.length
  | [] => Nat.le_refl _
  | a :: l => by
    simp only [List.dropWhile]
    split
    · exact Nat.le_succ_of_le (length_dropWhile_le p l)
    · exact Nat.le_refl _

/-- Numeric value of a run of decimal digits (most significant first). -/
def natOfDigits (cs : List Char) : ℕ :=
  cs.foldl (fun acc c => 10 * acc + (c.toNat - '0'.toNat)) 0

/-- CPython `float(s)` applied to a run of digits and dots: it succeeds
iff the run has at most one `'.'` and at least one digit, and then denotes
`intpart + fracpart / 10 ^ |fracpart|`.  `float("1.2.3")` and `float(".")`
raise `ValueError`, modelled as `none`. -/
def pyFloatOfRun (cs : List Char) : Option ℚ :=
  if cs.count '.' ≤ 1 && cs.any (·.isDigit) then
    let ip := cs.takeWhile (· ≠ '.')
    let fp := (cs.dropWhile (· ≠ '.')).drop 1
    some ((natOfDigits ip : ℚ) + (natOfDigits fp : ℚ) / (10 : ℚ) ^ fp.length)
  else none

/-- A token of `_tokenize`: a float, or one of the characters `+-*/()`. -/
inductive Token where
  | num : ℚ → Token
  | plus : Token
  | minus : Token
  | star : Token
  | slash : Token
  | lparen : Token
  | rparen : Token
  deriving DecidableEq

/-- The loop body of `_tokenize(expr)`, with a fuel parameter so that the
recursion is structural (the fuel only needs to dominate the length of the
list; `tokenize` below supplies it): whitespace skipped, a maximal run of
digits and dots converted by `float` (whose `ValueError` propagates, hence
`Option`), the six operator characters kept, anything else silently
skipped. -/
def tokenizeF : ℕ → List Char → Option (List Token)
  | _, [] => some []
  | 0, _ :: _ => none
  | fuel + 1, c :: cs =>
    if pyIsSpace c then tokenizeF fuel cs
    else if isDigitDot c then
      match pyFloatOfRun (c :: cs.takeWhile isDigitDot) with
      | none => none
      | some q => (tokenizeF fuel (cs.dropWhile isDigitDot)).map (Token.num q :: ·)
    else if c = '+' then (tokenizeF fuel cs).map (Token.plus :: ·)
    else if c = '-' then (tokenizeF fuel cs).map (Token.minus :: ·)
    else if c = '*' then (tokenizeF fuel cs).map (Token.star :: ·)
    else if c = '/' then (tokenizeF fuel cs).map (Token.slash :: ·)
    else if c = '(' then (tokenizeF fuel cs).map (Token.lparen :: ·)
    else if c = ')' then (tokenizeF fuel cs).map (Token.rparen :: ·)
    else tokenizeF fuel cs

/-- `_tokenize(expr)`; the fuel `cs.length` is enough for the whole input
(`tokenizeF_congr` below shows any fuel `≥ cs.length` gives the same
result, so the fuel is a proof artifact, not part of the model). -/
def tokenize (cs : List Char) : Option (List Token) := tokenizeF cs.length cs

/-- The fuel of `tokenizeF` is irrelevant as long as it dominates the
length of the input. -/
theorem tokenizeF_congr :
    ∀ (f g : ℕ) (cs : List Char), cs.length ≤ f → cs.length ≤ g →
      tokenizeF f cs = tokenizeF g cs
  | f, g, [], _, _ => by cases f <;> cases g <;> rfl
  | 0, _, _ :: _, hf, _ => absurd hf (by simp)
  | _ + 1, 0, _ :: _, _, hg => absurd hg (by simp)
  | f + 1, g + 1, c :: cs, hf, hg => by
    have hlen : cs.length ≤ f := by simp only [List.length_cons] at hf; omega
    have hlen' : cs.length ≤ g := by simp only [List.length_cons] at hg; omega
    have hdrop : (cs.dropWhile isDigitDot).length ≤ f :=
      Nat.le_trans (length_dropWhile_le _ _) hlen
    have hdrop' : (cs.dropWhile isDigitDot).length ≤ g :=
      Nat.le_trans (length_dropWhile_le _ _) hlen'
    simp only [tokenizeF]
    rw [tokenizeF_congr f g cs hlen hlen',
      tokenizeF_congr f g (cs.dropWhile isDigitDot) hdrop hdrop']

/- The recursive-descent parser of `_parse_expr`/`_parse_term`/
`_parse_factor`, written on the unconsumed suffix of the token list
(the Python code passes `(tokens, pos)`; the suffix is `tokens[pos:]`).
The result carries a proof that the suffix only shrinks, which provides
the termination measure; `parse_expr'` and friends below project the
observable `(value, rest)` pair back out.  `none` models an uncaught
exception: IndexError on `tokens[pos]` with `pos` out of range, or
ZeroDivisionError on `val /= right` with `right == 0`. -/

/-- `pos < len(tokens) and tokens[pos] == ')'`. -/
def headIsRParen : List Token → Bool
  | Token.rparen :: _ => true
  | _ => false

mutual

def parse_expr (ts : List Token) :
    Option (ℚ × {r : List Token // r.length ≤ ts.length}) :=
  match parse_term ts with
  | none => none
  | some p =>
    match parse_expr_ops p.1 p.2.val with
    | none => none
    | some q =>
      some (q.1, ⟨q.2.val, Nat.le_trans q.2.property p.2.property⟩)
termination_by 8 * ts.length + 5
decreasing_by
  · omega
  · have := p.2.property; omega

def parse_expr_ops (v : ℚ) (ts : List Token) :
    Option (ℚ × {r : List Token // r.length ≤ ts.length}) :=
  match ts with
  | Token.plus :: rest =>
    match parse_term rest with
    | none => none
    | some p =>
      match parse_expr_ops (v + p.1) p.2.val with
      | none => none
      | some q =>
        some (q.1, ⟨q.2.val, by
          have h1 := p.2.property
          have h2 := q.2.property
          simp only [List.length_cons]
          omega⟩)
  | Token.minus :: rest =>
    match parse_term rest with
    | none => none
    | some p =>
      match parse_expr_ops (v - p.1) p.2.val with
      | none => none
      | some q =>
        some (q.1, ⟨q.2.val, by
          have h1 := p.2.property
          have h2 := q.2.property
          simp only [List.length_cons]
          omega⟩)
  | other => some (v, ⟨other, Nat.le_refl _⟩)
termination_by 8 * ts.length + 4
decreasing_by
  · simp only [List.length_cons]; omega
  · have := p.2.property; simp only [List.length_cons]; omega
  · simp only [List.length_cons]; omega
  · have := p.2.property; simp only [List.length_cons]; omega

def parse_term (ts : List Token) :
    Option (ℚ × {r : List Token // r.length ≤ ts.length}) :=
  match parse_factor ts with
  | none => none
  | some p =>
    match parse_term_ops p.1 p.2.val with
    | none => none
    | some q =>
      some (q.1, ⟨q.2.val, Nat.le_trans q.2.property p.2.property⟩)
termination_by 8 * ts.length + 3
decreasing_by
  · omega
  · have := p.2.property; omega

def parse_term_ops (v : ℚ) (ts : List Token) :
    Option (ℚ × {r : List Token // r.length ≤ ts.length}) :=
  match ts with
  | Token.star :: rest =>
    match parse_factor rest with
    | none => none
    | some p =>
      match parse_term_ops (v * p.1) p.2.val with
      | none => none
      | some q =>
        some (q.1, ⟨q.2.val, by
          have h1 := p.2.property
          have h2 := q.2.property
          simp only [List.length_cons]
          omega⟩)
  | Token.slash :: rest =>
    match parse_factor rest with
    | none => none
    | some p =>
      if p.1 = 0 then none
      else
        match parse_term_ops (v / p.1) p.2.val with
        | none => none
        | some q =>
          some (q.1, ⟨q.2.val, by
            have h1 := p.2.property
            have h2 := q.2.property
            simp only [List.length_cons]
            omega⟩)
  | other => some (v, ⟨other, Nat.le_refl _⟩)
termination_by 8 * ts.length + 2
decreasing_by
  · simp only [List.length_cons]; omega
  · have := p.2.property; simp only [List.length_cons]; omega
  · simp only [List.length_cons]; omega
  · have := p.2.property; simp only [List.length_cons]; omega

def parse_factor (ts : List Token) :
    Option (ℚ × {r : List Token // r.length ≤ ts.length}) :=
  match ts with
  | Token.lparen :: rest =>
    match parse_expr rest with
    | none => none
    | some p =>
      if headIsRParen p.2.val then
        some (p.1, ⟨p.2.val.tail, by
          have h1 := p.2.property
          have h2 := List.length_tail p.2.val
          simp only [List.length_cons]
          omega⟩)
      else
        some (p.1, ⟨p.2.val, by
          have := p.2.property
          simp only [List.length_cons]
          omega⟩)
  | Token.num q :: rest =>
    some (q, ⟨rest, by simp only [List.length_cons]; omega⟩)
  | _ :: rest => some (0, ⟨rest, by simp only [List.length_cons]; omega⟩)
  | [] => none
termination_by 8 * ts.length + 1
decreasing_by
  simp only [List.length_cons]; omega

end

/- The observable behaviour of `_parse_expr`/`_parse_term`/`_parse_factor`:
the `(value, remaining tokens)` pair, without the termination bookkeeping.
These are the functions the theorems below speak about. -/

def parse_expr' (ts : List Token) : Option (ℚ × List Token) :=
  (parse_expr ts).map (fun p => (p.1, p.2.val))

def parse_expr_ops' (v : ℚ) (ts : List Token) : Option (ℚ × List Token) :=
  (parse_expr_ops v ts).map (fun p => (p.1, p.2.val))

def parse_term' (ts : List Token) : Option (ℚ × List Token) :=
  (parse_term ts).map (fun p => (p.1, p.2.val))

def parse_term_ops' (v : ℚ) (ts : List Token) : Option (ℚ × List Token) :=
  (parse_term_ops v ts).map (fun p => (p.1, p.2.val))

def parse_factor' (ts : List Token) : Option (ℚ × List Token) :=
  (parse_factor ts).map (fun p => (p.1, p.2.val))

/-- Additive operators of the grammar `expr := term (('+'|'-') term)*`. -/
inductive AOp where
  | plus : AOp
  | minus : AOp
  deriving DecidableEq

/-- Multiplicative operators of `term := factor (('*'|'/') factor)*`. -/
inductive MOp where
  | star : MOp
  | slash : MOp
  deriving DecidableEq

/- Parse trees of the source grammar
  `expr := term (('+'|'-') term)*`,
  `term := factor (('*'|'/') factor)*`,
  `factor := '(' expr ')' | number`.
An `expr` is a head term and a chain of (additive op, term) pairs; a term
is a head factor and a chain of (multiplicative op, factor) pairs.  To
keep the mutual induction first-order, a term is flattened into its head
factor `F` plus its chain `MC`, and an expr into `(F, MC, AC)`. -/
mutual

inductive F where
  | num : ℕ → F
  | paren : F → MC → AC → F

inductive MC where
  | mnil : MC
  | mcons : MOp → F → MC → MC

inductive AC where
  | anil : AC
  | acons : AOp → F → MC → AC → AC

end

def AOp.tok : AOp → Token
  | .plus => Token.plus
  | .minus => Token.minus

def MOp.tok : MOp → Token
  | .star => Token.star
  | .slash => Token.slash

/- The token string spelled by a parse tree. -/
mutual

def tokF : F → List Token
  | .num n => [Token.num (n : ℚ)]
  | .paren f m a =>
    Token.lparen :: ((tokF f ++ tokMC m ++ tokAC a) ++ [Token.rparen])

def tokMC : MC → List Token
  | .mnil => []
  | .mcons op f rest => op.tok :: (tokF f ++ tokMC rest)

def tokAC : AC → List Token
  | .anil => []
  | .acons op f m rest => op.tok :: ((tokF f ++ tokMC m) ++ tokAC rest)

end

/- Modelled from the spec: the value of a parse tree under "standard
infix arithmetic with the usual precedence (`* /` bind tighter than
`+ -`) and left-to-right associativity at each precedence level".  Each
chain is folded left-to-right through an accumulator; division by zero
leaves the value undefined (`none`).  This is the reference semantics the
parser is compared against; it is written from the spec's words, not from
the code. -/
mutual

def evalF : F → Option ℚ
  | .num n => some (n : ℚ)
  | .paren f m a => evalE f m a
termination_by f => 4 * sizeOf f

def evalMC : ℚ → MC → Option ℚ
  | acc, .mnil => some acc
  | acc, .mcons .star f rest =>
    match evalF f with
    | none => none
    | some r => evalMC (acc * r) rest
  | acc, .mcons .slash f rest =>
    match evalF f with
    | none => none
    | some r => if r = 0 then none else evalMC (acc / r) rest
termination_by _ m => 4 * sizeOf m

def evalAC : ℚ → AC → Option ℚ
  | acc, .anil => some acc
  | acc, .acons op f m rest =>
    match evalF f with
    | none => none
    | some vf =>
      match evalMC vf m with
      | none => none
      | some vt =>
        evalAC (match op with | .plus => acc + vt | .minus => acc - vt) rest
termination_by _ a => 4 * sizeOf a

def evalE (f : F) (m : MC) (a : AC) : Option ℚ :=
  match evalF f with
  | none => none
  | some vf =>
    match evalMC vf m with
    | none => none
    | some vt => evalAC vt a
termination_by 4 * (sizeOf f + sizeOf m + sizeOf a) + 2

end

/-- The lazy group `(.+?)` of `re.search(r'What is (.+?)\?', question)`,
matched at a fixed position: the group is everything up to the first `'?'`
at distance ≥ 1, provided no `'\n'` intervenes (`.` does not match a
newline).  `upToQ cs` is the list of characters of `cs` strictly before
its first `'?'`, failing if a `'\n'` or the end of the string comes
first. -/
def upToQ : List Char → Option (List Char)
  | [] => none
  | c :: cs =>
    if c = '?' then some []
    else if c = '\n' then none
    else (upToQ cs).map (c :: ·)

/-- `(.+?)\?` at a fixed position: at least one character, then the chars
up to the next `'?'`. -/
def scanGroup : List Char → Option (List Char)
  | [] => none
  | c :: cs => if c = '\n' then none else (upToQ cs).map (c :: ·)

/-- `re.search(r'What is (.+?)\?', question)`: the match at the leftmost
position where the literal `"What is "` is followed by a nonempty
newline-free run of characters and then a `'?'`; `none` when no position
matches. -/
def findWhatIs : List Char → Option (List Char)
  | [] => none
  | c :: cs =>
    if "What is ".data.isPrefixOf (c :: cs) then
      match scanGroup ((c :: cs).drop 8) with
      | some g => some g
      | none => findWhatIs cs
    else findWhatIs cs

/-- Python `str.strip()`: remove leading and trailing whitespace. -/
def pyStrip (cs : List Char) : List Char :=
  ((cs.dropWhile pyIsSpace).reverse.dropWhile pyIsSpace).reverse

/-- `expr.replace('×', '*').replace('÷', '/')`, per character. -/
def pyRep (c : Char) : Char :=
  if c = '×' then '*' else if c = '÷' then '/' else c

/-- The character class of `re.match(r'^[\d\s+\-*/().]+$', expr)`. -/
def isRegexAllowed (c : Char) : Bool :=
  c.isDigit || pyIsSpace c || c = '+' || c = '-' || c = '*' || c = '/' ||
    c = '(' || c = ')' || c = '.'

/-- Round a rational to the nearest integer, ties to even: the behaviour
of CPython `round` on an exactly-representable value. -/
def roundHalfEven (q : ℚ) : ℤ :=
  let f := q.floor
  let r := q - (f : ℚ)
  if r < 1 / 2 then f
  else if 1 / 2 < r then f + 1
  else if f % 2 = 0 then f else f + 1

/-- `round(result, 2)` on the exact rational model: the resulting value
times 100, as an integer. -/
def pyRound2 (v : ℚ) : ℤ := roundHalfEven (v * 100)

/-- `str(...)` of the float `n / 100` (the result of `round(x, 2)`):
Python prints the shortest decimal, dropping a trailing zero digit but
always keeping one digit after the point. -/
def formatRounded (n : ℤ) : String :=
  let sign := if n < 0 then "-" else ""
  let m := n.natAbs
  let ip := m / 100
  let fr := m % 100
  let frStr :=
    if fr = 0 then "0"
    else if fr % 10 = 0 then toString (fr / 10)
    else if fr < 10 then "0" ++ toString fr
    else toString fr
  sign ++ toString ip ++ "." ++ frStr

/-- `str(int(result)) if float(result) == int(result) else
str(round(result, 2))`: a whole number prints as an integer, otherwise
the value is rounded to 2 decimal places. -/
def formatResult (v : ℚ) : String :=
  if v.den = 1 then toString v.num else formatRounded (pyRound2 v)

/-- `solve_math(question)`: extract the expression of a `What is ...?`
question, strip it, normalize `×`/`÷`, check the character class, then
tokenize and parse; any failure (no match, bad character, exception
during tokenizing/parsing) yields the fallback `"0"`.  The `result is
not None` test of the source is vacuous (the parser never returns
`None`) and is not modelled. -/
def solve_math (question : String) : String :=
  match findWhatIs question.data with
  | none => "0"
  | some g =>
    let expr := (pyStrip g).map pyRep
    if !expr.isEmpty && expr.all isRegexAllowed then
      match tokenize expr with
      | none => "0"
      | some ts =>
        match parse_expr' ts with
        | none => "0"
        | some (v, _) => formatResult v
    else "0"

/-- The loop of `_parse_expr` continues iff the next token is `+` or `-`. -/
def headIsAdd : List Token → Bool
  | Token.plus :: _ => true
  | Token.minus :: _ => true
  | _ => false

/-- The loop of `_parse_term` continues iff the next token is `*` or `/`. -/
def headIsMul : List Token → Bool
  | Token.star :: _ => true
  | Token.slash :: _ => true
  | _ => false

theorem length_le_append_left (l r : List Token) : r.length ≤ (l ++ r).length := by
  simp only [List.length_append]
  omega

theorem parse_expr_ops_stop (v : ℚ) (ts : List Token) (h : headIsAdd ts = false) :
    parse_expr_ops v ts = some (v, ⟨ts, Nat.le_refl _⟩) := by
  cases ts with
  | nil => simp [parse_expr_ops]
  | cons t ts' => cases t <;> simp_all [parse_expr_ops, headIsAdd]

theorem parse_term_ops_stop (v : ℚ) (ts : List Token) (h : headIsMul ts = false) :
    parse_term_ops v ts = some (v, ⟨ts, Nat.le_refl _⟩) := by
  cases ts with
  | nil => simp [parse_term_ops]
  | cons t ts' => cases t <;> simp_all [parse_term_ops, headIsMul]

theorem headIsMul_tokAC (a : AC) (rest : List Token) (h : headIsMul rest = false) :
    headIsMul (tokAC a ++ rest) = false := by
  cases a with
  | anil => simpa [tokAC] using h
  | acons op f m r => cases op <;> simp [tokAC, AOp.tok, headIsMul]

/- Unfolding equations of the observable parser. -/

theorem parse_expr'_eq (ts : List Token) :
    parse_expr' ts =
      match parse_term' ts with
      | none => none
      | some (v, ts1) => parse_expr_ops' v ts1 := by
  simp only [parse_expr', parse_term', parse_expr_ops']
  rw [parse_expr.eq_def]
  cases h1 : parse_term ts with
  | none => simp [h1]
  | some p =>
    cases h2 : parse_expr_ops p.1 p.2.val with
    | none => simp [h1, h2]
    | some q => simp [h1, h2]

theorem parse_term'_eq (ts : List Token) :
    parse_term' ts =
      match parse_factor' ts with
      | none => none
      | some (v, ts1) => parse_term_ops' v ts1 := by
  simp only [parse_term', parse_factor', parse_term_ops']
  rw [parse_term.eq_def]
  cases h1 : parse_factor ts with
  | none => simp [h1]
  | some p =>
    cases h2 : parse_term_ops p.1 p.2.val with
    | none => simp [h1, h2]
    | some q => simp [h1, h2]

theorem parse_expr_ops'_plus (v : ℚ) (rest : List Token) :
    parse_expr_ops' v (Token.plus :: rest) =
      match parse_term' rest with
      | none => none
      | some (r, ts1) => parse_expr_ops' (v + r) ts1 := by
  simp only [parse_expr_ops', parse_term']
  rw [parse_expr_ops.eq_def]
  cases h1 : parse_term rest with
  | none => simp [h1]
  | some p =>
    cases h2 : parse_expr_ops (v + p.1) p.2.val with
    | none => simp [h1, h2]
    | some q => simp [h1, h2]

theorem parse_expr_ops'_minus (v : ℚ) (rest : List Token) :
    parse_expr_ops' v (Token.minus :: rest) =
      match parse_term' rest with
      | none => none
      | some (r, ts1) => parse_expr_ops' (v - r) ts1 := by
  simp only [parse_expr_ops', parse_term']
  rw [parse_expr_ops.eq_def]
  cases h1 : parse_term rest with
  | none => simp [h1]
  | some p =>
    cases h2 : parse_expr_ops (v - p.1) p.2.val with
    | none => simp [h1, h2]
    | some q => simp [h1, h2]

theorem parse_expr_ops'_stop (v : ℚ) (ts : List Token)
    (h : headIsAdd ts = false) : parse_expr_ops' v ts = some (v, ts) := by
  simp [parse_expr_ops', parse_expr_ops_stop v ts h]

theorem parse_term_ops'_star (v : ℚ) (rest : List Token) :
    parse_term_ops' v (Token.star :: rest) =
      match parse_factor' rest with
      | none => none
      | some (r, ts1) => parse_term_ops' (v * r) ts1 := by
  simp only [parse_term_ops', parse_factor']
  rw [parse_term_ops.eq_def]
  cases h1 : parse_factor rest with
  | none => simp [h1]
  | some p =>
    cases h2 : parse_term_ops (v * p.1) p.2.val with
    | none => simp [h1, h2]
    | some q => simp [h1, h2]

theorem parse_term_ops'_slash (v : ℚ) (rest : List Token) :
    parse_term_ops' v (Token.slash :: rest) =
      match parse_factor' rest with
      | none => none
      | some (r, ts1) =>
        if r = 0 then none else parse_term_ops' (v / r) ts1 := by
  simp only [parse_term_ops', parse_factor']
  rw [parse_term_ops.eq_def]
  cases h1 : parse_factor rest with
  | none => simp [h1]
  | some p =>
    by_cases hr : p.1 = 0
    · simp [h1, hr]
    · cases h2 : parse_term_ops (v / p.1) p.2.val with
      | none => simp [h1, hr, h2]
      | some q => simp [h1, hr, h2]

theorem parse_term_ops'_stop (v : ℚ) (ts : List Token)
    (h : headIsMul ts = false) : parse_term_ops' v ts = some (v, ts) := by
  simp [parse_term_ops', parse_term_ops_stop v ts h]

theorem parse_factor'_num (q : ℚ) (rest : List Token) :
    parse_factor' (Token.num q :: rest) = some (q, rest) := by
  simp only [parse_factor']
  rw [parse_factor.eq_def]
  simp

theorem parse_factor'_nil : parse_factor' [] = none := by
  simp only [parse_factor']
  rw [parse_factor.eq_def]
  simp

theorem parse_factor'_lparen (rest : List Token) :
    parse_factor' (Token.lparen :: rest) =
      match parse_expr' rest with
      | none => none
      | some (v, Token.rparen :: ts2) => some (v, ts2)
      | some (v, ts1) => some (v, ts1) := by
  simp only [parse_factor', parse_expr']
  rw [parse_factor.eq_def]
  cases h1 : parse_expr rest with
  | none => simp [h1]
  | some p =>
    obtain ⟨v, ts1, hle⟩ := p
    cases ts1 with
    | nil => simp [h1, headIsRParen]
    | cons t ts2 => cases t <;> simp [h1, headIsRParen]

/- Correctness of the recursive-descent parser on the token string of any
parse tree: parsing consumes exactly the tree's tokens and returns the
reference value of `evalF`/`evalMC`/`evalAC`/`evalE`, provided the token
that follows cannot extend the parse at the given level. -/
mutual

theorem parse_factor'_tok (f : F) (v : ℚ) (rest : List Token)
    (hv : evalF f = some v) :
    parse_factor' (tokF f ++ rest) = some (v, rest) := by
  cases f with
  | num n =>
    simp only [evalF, Option.some.injEq] at hv
    subst hv
    simp only [tokF, List.singleton_append]
    exact parse_factor'_num _ _
  | paren f m a =>
    simp only [evalF] at hv
    have hinner := parse_expr'_tok f m a v (Token.rparen :: rest) hv rfl rfl
    simp only [tokF, List.cons_append, List.append_assoc, List.singleton_append,
      List.nil_append]
    rw [parse_factor'_lparen]
    rw [hinner]
termination_by 4 * sizeOf f
decreasing_by all_goals (simp_wf; subst_vars; first | omega | (simp; omega) | simp | simp_arith)

theorem parse_term_ops'_tok (m : MC) (acc v : ℚ) (rest : List Token)
    (hm : evalMC acc m = some v) (hrest : headIsMul rest = false) :
    parse_term_ops' acc (tokMC m ++ rest) = some (v, rest) := by
  cases m with
  | mnil =>
    simp only [evalMC, Option.some.injEq] at hm
    subst hm
    simp only [tokMC, List.nil_append]
    exact parse_term_ops'_stop acc rest hrest
  | mcons op f rc =>
    cases op with
    | star =>
      cases hf : evalF f with
      | none => simp only [evalMC, hf] at hm; exact Option.noConfusion hm
      | some r =>
        simp only [evalMC, hf] at hm
        simp only [tokMC, MOp.tok, List.cons_append, List.append_assoc]
        rw [parse_term_ops'_star]
        rw [parse_factor'_tok f r (tokMC rc ++ rest) hf]
        exact parse_term_ops'_tok rc (acc * r) v rest hm hrest
    | slash =>
      cases hf : evalF f with
      | none => simp only [evalMC, hf] at hm; exact Option.noConfusion hm
      | some r =>
        simp only [evalMC, hf] at hm
        have hr : ¬r = 0 := by
          intro h0
          rw [if_pos h0] at hm
          exact Option.noConfusion hm
        rw [if_neg hr] at hm
        simp only [tokMC, MOp.tok, List.cons_append, List.append_assoc]
        rw [parse_term_ops'_slash]
        rw [parse_factor'_tok f r (tokMC rc ++ rest) hf]
        simp only [if_neg hr]
        exact parse_term_ops'_tok rc (acc / r) v rest hm hrest
termination_by 4 * sizeOf m
decreasing_by all_goals (simp_wf; subst_vars; first | omega | (simp; omega) | simp | simp_arith)

theorem parse_term'_tok (f : F) (m : MC) (vf v : ℚ) (rest : List Token)
    (hf : evalF f = some vf) (hm : evalMC vf m = some v)
    (hrest : headIsMul rest = false) :
    parse_term' (tokF f ++ (tokMC m ++ rest)) = some (v, rest) := by
  rw [parse_term'_eq]
  rw [parse_factor'_tok f vf (tokMC m ++ rest) hf]
  exact parse_term_ops'_tok m vf v rest hm hrest
termination_by 4 * (sizeOf f + sizeOf m) + 1
decreasing_by all_goals (simp_wf; subst_vars; first | omega | (simp; omega) | simp | simp_arith)

theorem parse_expr_ops'_tok (a : AC) (acc v : ℚ) (rest : List Token)
    (ha : evalAC acc a = some v) (hadd : headIsAdd rest = false)
    (hmul : headIsMul rest = false) :
    parse_expr_ops' acc (tokAC a ++ rest) = some (v, rest) := by
  cases a with
  | anil =>
    simp only [evalAC, Option.some.injEq] at ha
    subst ha
    simp only [tokAC, List.nil_append]
    exact parse_expr_ops'_stop acc rest hadd
  | acons op f m rc =>
    have hmul' : headIsMul (tokAC rc ++ rest) = false :=
      headIsMul_tokAC rc rest hmul
    cases op with
    | plus =>
      cases hf : evalF f with
      | none => simp only [evalAC, hf] at ha; exact Option.noConfusion ha
      | some vf =>
        cases hm : evalMC vf m with
        | none => simp only [evalAC, hf, hm] at ha; exact Option.noConfusion ha
        | some vt =>
          simp only [evalAC, hf, hm] at ha
          simp only [tokAC, AOp.tok, List.cons_append, List.append_assoc]
          rw [parse_expr_ops'_plus]
          rw [parse_term'_tok f m vf vt (tokAC rc ++ rest) hf hm hmul']
          exact parse_expr_ops'_tok rc (acc + vt) v rest ha hadd hmul
    | minus =>
      cases hf : evalF f with
      | none => simp only [evalAC, hf] at ha; exact Option.noConfusion ha
      | some vf =>
        cases hm : evalMC vf m with
        | none => simp only [evalAC, hf, hm] at ha; exact Option.noConfusion ha
        | some vt =>
          simp only [evalAC, hf, hm] at ha
          simp only [tokAC, AOp.tok, List.cons_append, List.append_assoc]
          rw [parse_expr_ops'_minus]
          rw [parse_term'_tok f m vf vt (tokAC rc ++ rest) hf hm hmul']
          exact parse_expr_ops'_tok rc (acc - vt) v rest ha hadd hmul
termination_by 4 * sizeOf a
decreasing_by all_goals (simp_wf; subst_vars; first | omega | (simp; omega) | simp | simp_arith)

theorem parse_expr'_tok (f : F) (m : MC) (a : AC) (v : ℚ) (rest : List Token)
    (he : evalE f m a = some v) (hadd : headIsAdd rest = false)
    (hmul : headIsMul rest = false) :
    parse_expr' (tokF f ++ (tokMC m ++ (tokAC a ++ rest))) = some (v, rest) := by
  cases hf : evalF f with
  | none => simp only [evalE, hf] at he; exact Option.noConfusion he
  | some vf =>
    cases hm : evalMC vf m with
    | none => simp only [evalE, hf, hm] at he; exact Option.noConfusion he
    | some vt =>
      simp only [evalE, hf, hm] at he
      rw [parse_expr'_eq]
      rw [parse_term'_tok f m vf vt (tokAC a ++ rest) hf hm
        (headIsMul_tokAC a rest hmul)]
      exact parse_expr_ops'_tok a vt v rest he hadd hmul
termination_by 4 * (sizeOf f + sizeOf m + sizeOf a) + 2
decreasing_by all_goals (simp_wf; subst_vars; first | omega | (simp; omega) | simp | simp_arith)

end

/- String-level lemmas used to take `solve_math` from a whole question to
the token list of its expression. -/

/-- One-step unfolding of `tokenize` on a nonempty input. -/
theorem tokenize_cons (c : Char) (cs : List Char) :
    tokenize (c :: cs) =
      if pyIsSpace c then tokenize cs
      else if isDigitDot c then
        match pyFloatOfRun (c :: cs.takeWhile isDigitDot) with
        | none => none
        | some q => (tokenize (cs.dropWhile isDigitDot)).map (Token.num q :: ·)
      else if c = '+' then (tokenize cs).map (Token.plus :: ·)
      else if c = '-' then (tokenize cs).map (Token.minus :: ·)
      else if c = '*' then (tokenize cs).map (Token.star :: ·)
      else if c = '/' then (tokenize cs).map (Token.slash :: ·)
      else if c = '(' then (tokenize cs).map (Token.lparen :: ·)
      else if c = ')' then (tokenize cs).map (Token.rparen :: ·)
      else tokenize cs := by
  simp only [tokenize, List.length_cons, tokenizeF]
  simp only [tokenizeF_congr cs.length (cs.dropWhile isDigitDot).length
    (cs.dropWhile isDigitDot) (length_dropWhile_le _ _) (Nat.le_refl _)]

/-- The operator characters of the tokenizer. -/
def isOpChar (c : Char) : Bool :=
  c = '+' || c = '-' || c = '*' || c = '/' || c = '(' || c = ')'

/-- A character that is neither part of a number run nor an operator is
skipped by the tokenizer; this covers whitespace and any unrecognized
character alike. -/
theorem tokenize_cons_skip (c : Char) (cs : List Char)
    (hd : isDigitDot c = false) (hop : isOpChar c = false) :
    tokenize (c :: cs) = tokenize cs := by
  rw [tokenize_cons]
  by_cases hsp : pyIsSpace c
  · simp [hsp]
  · have h6 : ((((¬c = '+' ∧ ¬c = '-') ∧ ¬c = '*') ∧ ¬c = '/') ∧ ¬c = '(') ∧ ¬c = ')' := by
      simpa [isOpChar] using hop
    obtain ⟨⟨⟨⟨⟨h1, h2⟩, h3⟩, h4⟩, h5⟩, h6'⟩ := h6
    simp [hsp, hd, h1, h2, h3, h4, h5, h6']

theorem pyIsSpace_not_digitDot (c : Char) (h : pyIsSpace c = true) :
    isDigitDot c = false ∧ isOpChar c = false := by
  have : ((((c = ' ' ∨ c = '\t') ∨ c = '\n') ∨ c = '\x0d') ∨ c = '\x0b') ∨ c = '\x0c' := by
    simpa [pyIsSpace] using h
  rcases this with ((((rfl | rfl) | rfl) | rfl) | rfl) | rfl <;> exact ⟨by decide, by decide⟩

theorem tokenize_all_space (w : List Char) (hw : ∀ c ∈ w, pyIsSpace c = true) :
    tokenize w = some [] := by
  induction w with
  | nil => rfl
  | cons c w ih =>
    have hc := pyIsSpace_not_digitDot c (hw c (List.mem_cons_self c w))
    rw [tokenize_cons_skip c w hc.1 hc.2]
    exact ih (fun d hd => hw d (List.mem_cons_of_mem c hd))

theorem tokenize_dropWhile_space (cs : List Char) :
    tokenize (cs.dropWhile pyIsSpace) = tokenize cs := by
  induction cs with
  | nil => rfl
  | cons c cs ih =>
    by_cases hsp : pyIsSpace c
    · have hc := pyIsSpace_not_digitDot c hsp
      rw [List.dropWhile_cons_of_pos hsp, ih, tokenize_cons_skip c cs hc.1 hc.2]
    · rw [List.dropWhile_cons_of_neg hsp]

theorem takeWhile_append_not (p : Char → Bool) (t : List Char)
    (ht : ∀ c ∈ t, p c = false) :
    ∀ cs : List Char, (cs ++ t).takeWhile p = cs.takeWhile p
  | [] => by
    cases t with
    | nil => rfl
    | cons c t' => simp [List.takeWhile_cons, ht c (List.mem_cons_self c t')]
  | c :: cs => by
    simp only [List.cons_append, List.takeWhile_cons]
    by_cases hc : p c
    · simp [hc, takeWhile_append_not p t ht cs]
    · simp [hc]

theorem dropWhile_append_not (p : Char → Bool) (t : List Char)
    (ht : ∀ c ∈ t, p c = false) :
    ∀ cs : List Char, (cs ++ t).dropWhile p = cs.dropWhile p ++ t
  | [] => by
    cases t with
    | nil => rfl
    | cons c t' => simp [List.dropWhile_cons, ht c (List.mem_cons_self c t')]
  | c :: cs => by
    simp only [List.cons_append, List.dropWhile_cons]
    by_cases hc : p c
    · simp [hc, dropWhile_append_not p t ht cs]
    · simp [hc]

theorem tokenize_append_space (w : List Char)
    (hw : ∀ c ∈ w, pyIsSpace c = true) :
    ∀ cs : List Char, tokenize (cs ++ w) = tokenize cs
  | [] => by simpa using tokenize_all_space w hw
  | c :: cs => by
    have hwnot : ∀ d ∈ w, isDigitDot d = false :=
      fun d hd => (pyIsSpace_not_digitDot d (hw d hd)).1
    by_cases hd : isDigitDot c
    · rw [List.cons_append, tokenize_cons, tokenize_cons]
      have hsp : pyIsSpace c = false := by
        by_contra hc
        have := (pyIsSpace_not_digitDot c (by revert hc; cases pyIsSpace c <;> simp)).1
        rw [this] at hd
        cases hd
      rw [takeWhile_append_not isDigitDot w hwnot cs,
        dropWhile_append_not isDigitDot w hwnot cs]
      simp only [hsp, hd, if_false, if_true, Bool.false_eq_true]
      rw [tokenize_append_space w hw (cs.dropWhile isDigitDot)]
    · by_cases hop : isOpChar c
      · have hsp : pyIsSpace c = false := by
          by_contra hc
          have := (pyIsSpace_not_digitDot c (by revert hc; cases pyIsSpace c <;> simp)).2
          rw [this] at hop
          cases hop
        have h6 : ((((c = '+' ∨ c = '-') ∨ c = '*') ∨ c = '/') ∨ c = '(') ∨ c = ')' := by
          simpa [isOpChar] using hop
        rw [List.cons_append, tokenize_cons, tokenize_cons,
          tokenize_append_space w hw cs]
        rcases h6 with ((((rfl | rfl) | rfl) | rfl) | rfl) | rfl <;> simp [hsp, hd]
      · rw [List.cons_append, tokenize_cons_skip c _ (by simpa using hd) (by simpa using hop),
          tokenize_cons_skip c _ (by simpa using hd) (by simpa using hop)]
        exact tokenize_append_space w hw cs
termination_by cs => cs.length
decreasing_by
  all_goals simp only [List.length_cons]
  all_goals first
    | omega
    | exact Nat.lt_succ_of_le (length_dropWhile_le _ _)

theorem tokenize_pyStrip (s : List Char) :
    tokenize (pyStrip s) = tokenize s := by
  unfold pyStrip
  have hw : ∀ c ∈ (((s.dropWhile pyIsSpace).reverse.takeWhile pyIsSpace)).reverse,
      pyIsSpace c = true := by
    intro c hc
    exact List.mem_takeWhile_imp (List.mem_reverse.mp hc)
  have hdecomp :
      ((s.dropWhile pyIsSpace).reverse.dropWhile pyIsSpace).reverse ++
        ((s.dropWhile pyIsSpace).reverse.takeWhile pyIsSpace).reverse =
      s.dropWhile pyIsSpace := by
    rw [← List.reverse_append, List.takeWhile_append_dropWhile, List.reverse_reverse]
  calc tokenize (((s.dropWhile pyIsSpace).reverse.dropWhile pyIsSpace).reverse)
      = tokenize (((s.dropWhile pyIsSpace).reverse.dropWhile pyIsSpace).reverse ++
          ((s.dropWhile pyIsSpace).reverse.takeWhile pyIsSpace).reverse) :=
        (tokenize_append_space _ hw _).symm
    _ = tokenize (s.dropWhile pyIsSpace) := by rw [hdecomp]
    _ = tokenize s := tokenize_dropWhile_space s

theorem mem_pyStrip (c : Char) (s : List Char) (h : c ∈ pyStrip s) : c ∈ s := by
  unfold pyStrip at h
  have h1 := List.mem_reverse.mp h
  have h2 := (List.dropWhile_suffix pyIsSpace).subset h1
  have h3 := List.mem_reverse.mp h2
  exact (List.dropWhile_suffix pyIsSpace).subset h3

/- Extraction of the expression from a canonical math question. -/

theorem upToQ_append (s : List Char) (h : ∀ c ∈ s, c ≠ '?' ∧ c ≠ '\n') :
    upToQ (s ++ ['?']) = some s := by
  induction s with
  | nil => rfl
  | cons c s ih =>
    have hc := h c (List.mem_cons_self c s)
    have hstep : (c :: s) ++ ['?'] = c :: (s ++ ['?']) := rfl
    rw [hstep]
    simp only [upToQ, if_neg hc.1, if_neg hc.2]
    rw [ih (fun d hd => h d (List.mem_cons_of_mem c hd))]
    rfl

theorem findWhatIs_concat (s : List Char) (hne : s ≠ [])
    (h : ∀ c ∈ s, c ≠ '?' ∧ c ≠ '\n') :
    findWhatIs ("What is ".data ++ (s ++ ['?'])) = some s := by
  obtain ⟨c, s', rfl⟩ := List.exists_cons_of_ne_nil hne
  have hc := h c (List.mem_cons_self c s')
  have hstep : "What is ".data ++ ((c :: s') ++ ['?']) =
      'W' :: ("hat is ".data ++ ((c :: s') ++ ['?'])) := rfl
  rw [hstep, findWhatIs]
  have hpre : "What is ".data.isPrefixOf
      ('W' :: ("hat is ".data ++ ((c :: s') ++ ['?']))) = true := by
    have : 'W' :: ("hat is ".data ++ ((c :: s') ++ ['?'])) =
        "What is ".data ++ ((c :: s') ++ ['?']) := rfl
    rw [this]
    exact List.isPrefixOf_iff_prefix.mpr (List.prefix_append _ _)
  rw [hpre]
  have hdrop : ('W' :: ("hat is ".data ++ ((c :: s') ++ ['?']))).drop 8 =
      (c :: s') ++ ['?'] := rfl
  rw [hdrop]
  have hscan : scanGroup ((c :: s') ++ ['?']) = some (c :: s') := by
    simp only [List.cons_append, scanGroup, if_neg hc.2]
    rw [upToQ_append s' (fun d hd => h d (List.mem_cons_of_mem c hd))]
    rfl
  rw [hscan]
  rfl

/- The character class of a claim-C1 expression: digits, the operator and
parenthesis characters, and whitespace other than a newline. -/
def isMathExprChar (c : Char) : Bool :=
  c.isDigit || c = '+' || c = '-' || c = '*' || c = '/' || c = '(' || c = ')' ||
    (pyIsSpace c && !(c = '\n'))

theorem mathChar_allowed (c : Char) (h : isMathExprChar c = true) :
    isRegexAllowed c = true := by
  simp only [isMathExprChar, Bool.or_eq_true, Bool.and_eq_true] at h
  simp only [isRegexAllowed, Bool.or_eq_true]
  rcases h with ((((((hd | h1) | h2) | h3) | h4) | h5) | h6) | ⟨hsp, _⟩
  · exact Or.inl (Or.inl (Or.inl (Or.inl (Or.inl (Or.inl (Or.inl (Or.inl hd)))))))
  · exact Or.inl (Or.inl (Or.inl (Or.inl (Or.inl (Or.inl (Or.inr h1))))))
  · exact Or.inl (Or.inl (Or.inl (Or.inl (Or.inl (Or.inr h2)))))
  · exact Or.inl (Or.inl (Or.inl (Or.inl (Or.inr h3))))
  · exact Or.inl (Or.inl (Or.inl (Or.inr h4)))
  · exact Or.inl (Or.inl (Or.inr h5))
  · exact Or.inl (Or.inr h6)
  · exact Or.inl (Or.inl (Or.inl (Or.inl (Or.inl (Or.inl (Or.inl (Or.inr hsp)))))))

theorem mathChar_not_special (c : Char) (h : isMathExprChar c = true) :
    c ≠ '?' ∧ c ≠ '\n' ∧ c ≠ '×' ∧ c ≠ '÷' := by
  refine ⟨?_, ?_, ?_, ?_⟩ <;> intro hq <;> subst hq <;> revert h <;> decide

theorem mathChar_pyRep (c : Char) (h : isMathExprChar c = true) : pyRep c = c := by
  have hs := mathChar_not_special c h
  simp [pyRep, hs.2.2.1, hs.2.2.2]

theorem tokF_ne_nil (f : F) : tokF f ≠ [] := by
  cases f <;> simp [tokF]

/-- The canonical question carrying an expression string. -/
def mkWhatIs (s : List Char) : String := String.mk ("What is ".data ++ (s ++ ['?']))

/-- C5 (counterexample to the claim as stated): division by zero is not
evaluated to an IEEE infinity or NaN; the evaluator raises
(ZeroDivisionError, modelled by `none`) and `solve_math` catches the
exception, answering the fallback `"0"`. -/
theorem c5_counterexample :
    tokenize "1 / 0".data = some [Token.num 1, Token.slash, Token.num 0]
    ∧ parse_expr' [Token.num 1, Token.slash, Token.num 0] = none
    ∧ solve_math "What is 1 / 0?" = "0" := by
  refine ⟨?_, ?_, ?_⟩ <;> with_unfolding_all rfl

/-- C5 (amended): whenever the term parser reaches a division whose
divisor evaluates to the literal `0`, it raises (returns no value) rather
than producing an infinity or NaN, and `solve_math` turns the exception
into the fallback `"0"`, as on `"What is 1 / 0?"`. -/
theorem c5_amended :
    (∀ (v : ℚ) (rest : List Token),
      parse_term_ops' v (Token.slash :: Token.num 0 :: rest) = none)
    ∧ solve_math "What is 1 / 0?" = "0" := by
  constructor
  · intro v rest
    rw [parse_term_ops'_slash, parse_factor'_num]
    simp
  · with_unfolding_all rfl

/-- C6 (counterexample to the claim as stated): on the malformed number
`"1.2.3"` the tokenizer does not produce a token; `float("1.2.3")` raises
ValueError (modelled by `none`), which propagates out of `_tokenize`. -/
theorem c6_counterexample :
    pyFloatOfRun "1.2.3".data = none ∧ tokenize "1.2.3".data = none := by
  constructor <;> with_unfolding_all rfl

/-- A run of digits and dots with at most one `'.'` and at least one
digit, for every maximal run of the input: exactly the inputs on which
every `float(...)` call of the tokenizer succeeds. -/
def goodRuns : List Char → Bool
  | [] => true
  | c :: cs =>
    if isDigitDot c then
      (pyFloatOfRun (c :: cs.takeWhile isDigitDot)).isSome &&
        goodRuns (cs.dropWhile isDigitDot)
    else goodRuns cs
termination_by cs => cs.length
decreasing_by
  all_goals simp only [List.length_cons]
  all_goals first
    | omega
    | exact Nat.lt_succ_of_le (length_dropWhile_le _ _)

theorem digitDot_not_space (c : Char) (h : isDigitDot c = true) :
    pyIsSpace c = false := by
  by_contra hc
  have hsp : pyIsSpace c = true := by revert hc; cases pyIsSpace c <;> simp
  have := (pyIsSpace_not_digitDot c hsp).1
  rw [this] at h
  cases h

theorem tokenize_isSome_of_goodRuns :
    ∀ (n : ℕ) (cs : List Char), cs.length ≤ n → goodRuns cs = true →
      (tokenize cs).isSome = true
  | _, [], _, _ => rfl
  | 0, _ :: _, h, _ => absurd h (by simp)
  | n + 1, c :: cs, hlen, hgood => by
    have hlen' : cs.length ≤ n := by simp only [List.length_cons] at hlen; omega
    simp only [goodRuns] at hgood
    by_cases hd : isDigitDot c
    · rw [if_pos hd] at hgood
      rw [Bool.and_eq_true] at hgood
      obtain ⟨q, hq⟩ := Option.isSome_iff_exists.mp hgood.1
      rw [tokenize_cons, if_neg (by simp [digitDot_not_space c hd]), if_pos hd, hq]
      have hrec := tokenize_isSome_of_goodRuns n (cs.dropWhile isDigitDot)
        (Nat.le_trans (length_dropWhile_le _ _) hlen') hgood.2
      obtain ⟨ts, hts⟩ := Option.isSome_iff_exists.mp hrec
      simp [hts]
    · rw [if_neg hd] at hgood
      by_cases hsp : pyIsSpace c
      · rw [tokenize_cons, if_pos hsp]
        exact tokenize_isSome_of_goodRuns n cs hlen' hgood
      · by_cases hop : isOpChar c
        · have h6 : ((((c = '+' ∨ c = '-') ∨ c = '*') ∨ c = '/') ∨ c = '(') ∨
              c = ')' := by simpa [isOpChar] using hop
          have hrec := tokenize_isSome_of_goodRuns n cs hlen' hgood
          rcases h6 with ((((rfl | rfl) | rfl) | rfl) | rfl) | rfl <;>
            simpa [tokenize_cons, hsp, hd, Option.isSome_map] using hrec
        · rw [tokenize_cons_skip c cs (by simpa using hd) (by simpa using hop)]
          exact tokenize_isSome_of_goodRuns n cs hlen' hgood

/-- C6 (amended): the tokenizer terminates without raising on every input
whose maximal digit-and-dot runs each parse as a float (at most one `'.'`
and at least one digit); whitespace and any unrecognized character are
silently skipped, and the empty string yields the empty token sequence.
A malformed run such as `"1.2.3"` instead makes the `float(...)` call
raise — see the counterexample — and the exception is caught only upstream
in `solve_math`. -/
theorem c6_amended :
    (∀ cs : List Char, goodRuns cs = true → (tokenize cs).isSome = true)
    ∧ tokenize [] = some []
    ∧ (∀ (c : Char) (cs : List Char), isDigitDot c = false →
        isOpChar c = false → tokenize (c :: cs) = tokenize cs)
    ∧ solve_math "What is 1.2.3?" = "0" := by
  refine ⟨fun cs h => tokenize_isSome_of_goodRuns cs.length cs (Nat.le_refl _) h,
    rfl, fun c cs hd hop => tokenize_cons_skip c cs hd hop, ?_⟩
  with_unfolding_all rfl

/-- C6 witness: the amended theorem applied at `"1.5 + 2"`, whose runs
`"1.5"` and `"2"` are well-formed floats. -/
theorem c6_witness : (tokenize "1.5 + 2".data).isSome = true := by
  have h := c6_amended.1 "1.5 + 2".data (by with_unfolding_all rfl)
  exact h

/-- C8 (counterexample to the claim as stated): the extracted substring of
`"What is 2 × 3?"` contains `'×'`, a character outside
`[0-9\s+\-*/().]`, yet `solve_math` answers `"6"`, not `"0"`: the `×` is
normalized to `*` after extraction and before the character-class test. -/
theorem c8_counterexample :
    findWhatIs "What is 2 × 3?".data = some "2 × 3".data
    ∧ ('×' ∈ "2 × 3".data ∧ isRegexAllowed '×' = false)
    ∧ solve_math "What is 2 × 3?" = "6" := by
  refine ⟨by with_unfolding_all rfl, by decide, by with_unfolding_all rfl⟩

/-- C8 (amended): if the extracted substring still contains a character
outside `[0-9\s+\-*/().]` after stripping and after replacing `×`/`÷` by
`*`/`/`, then `solve_math` answers the fallback `"0"`; for example
`"What is 2 + x?"` yields `"0"`. -/
theorem c8_amended :
    (∀ (q : String) (g : List Char), findWhatIs q.data = some g →
      (∃ c ∈ (pyStrip g).map pyRep, isRegexAllowed c = false) →
      solve_math q = "0")
    ∧ solve_math "What is 2 + x?" = "0" := by
  constructor
  · intro q g hfind hbad
    unfold solve_math
    rw [hfind]
    have hall : ((pyStrip g).map pyRep).all isRegexAllowed = false := by
      obtain ⟨c, hc, hcf⟩ := hbad
      rw [← Bool.not_eq_true, List.all_eq_true]
      intro hforall
      rw [hforall c hc] at hcf
      cases hcf
    simp [hall]
  · with_unfolding_all rfl

/-- C8 witness: the amended theorem applied at `"What is 2 + x?"`. -/
theorem c8_witness : solve_math "What is 2 + x?" = "0" := by
  exact c8_amended.1 "What is 2 + x?" "2 + x".data
    (by with_unfolding_all rfl)
    ⟨'x', by decide, by decide⟩

/- `solve_logic`: extraction of the integer list and the four sequence
rules. -/

/-- The character class `[\d,\s?]` of the logic-extraction regex. -/
def logicClass (c : Char) : Bool :=
  c.isDigit || c = ',' || pyIsSpace c || c = '?'

/-- `re.search(r'What comes next\?\s*([\d,\s?]+)', question)`: at the
leftmost occurrence of the literal `"What comes next?"`, the greedy `\s*`
takes the maximal whitespace run `w`, then `([\d,\s?]+)` takes the maximal
following class run `r`; if `r` is empty the regex backtracks, giving the
last whitespace character of `w` to the group; if `w` is empty too, the
match fails at this occurrence and the search continues. -/
def extractLogicGroup : List Char → Option (List Char)
  | [] => none
  | c :: cs =>
    if "What comes next?".data.isPrefixOf (c :: cs) then
      let after := (c :: cs).drop 16
      let w := after.takeWhile pyIsSpace
      let r := (after.dropWhile pyIsSpace).takeWhile logicClass
      if !r.isEmpty then some r
      else
        match w.getLast? with
        | some lastWs => some [lastWs]
        | none => extractLogicGroup cs
    else extractLogicGroup cs

/-- Python `raw.split(',')`: split at every comma, keeping empty pieces. -/
def splitComma : List Char → List (List Char)
  | [] => [[]]
  | c :: cs =>
    if c = ',' then [] :: splitComma cs
    else
      match splitComma cs with
      | [] => [[c]]
      | p :: ps => (c :: p) :: ps

/-- `[int(n.strip()) for n in raw.split(',') if n.strip().isdigit()]`
with `raw = match.group(1).strip()`; `[]` when the regex does not match. -/
def extractNums (q : String) : List ℤ :=
  match extractLogicGroup q.data with
  | none => []
  | some g =>
    (splitComma (pyStrip g)).filterMap fun t =>
      let t' := pyStrip t
      if !t'.isEmpty && t'.all Char.isDigit then some ((natOfDigits t' : ℤ))
      else none

/-- `[nums[i] - nums[i-1] for i in range(1, len(nums))]`. -/
def diffsOf (nums : List ℤ) : List ℤ :=
  List.zipWith (fun a b => a - b) (nums.drop 1) nums

/-- `all(nums[i] == nums[i-1] + nums[i-2] for i in range(2, len(nums)))`. -/
def fibAll : List ℤ → Bool
  | a :: b :: c :: rest => (c == b + a) && fibAll (b :: c :: rest)
  | _ => true

/-- `[nums[i] / nums[i-1] for i in range(1, len(nums))]` (float division,
modelled on exact rationals). -/
def ratiosOf (nums : List ℤ) : List ℚ :=
  List.zipWith (fun (a b : ℤ) => (a : ℚ) / (b : ℚ)) (nums.drop 1) nums

/-- `round(r, 6)` on the exact rational model. -/
def round6 (q : ℚ) : ℚ := (roundHalfEven (q * 1000000) : ℚ) / 1000000

/-- Python `int(float)`: truncation toward zero. -/
def pyTrunc (q : ℚ) : ℤ := if 0 ≤ q then q.floor else -((-q).floor)

/-- `[diffs[i] - diffs[i-1] for i in range(1, len(diffs))]`. -/
def diff2Of (nums : List ℤ) : List ℤ :=
  List.zipWith (fun a b => a - b) ((diffsOf nums).drop 1) (diffsOf nums)

/-- The rule cascade of `solve_logic` on the extracted list: Fibonacci,
arithmetic, geometric, second-order differences, and the unconditional
`nums[-1] + nums[-2]` fallback.  `len(set(l)) == 1` is modelled as
`l.dedup.length == 1`. -/
def solve_logic_core (nums : List ℤ) : String :=
  if nums.length < 3 then "0"
  else
    let last := nums.getLast?.getD 0
    let last2 := nums.dropLast.getLast?.getD 0
    if fibAll nums then toString (last + last2)
    else if (diffsOf nums).dedup.length == 1 then
      toString (last + (diffsOf nums).headI)
    else if nums.dropLast.all (fun x => x != 0) &&
        ((ratiosOf nums).map round6).dedup.length == 1 then
      toString (pyTrunc ((last : ℚ) * (ratiosOf nums).headI))
    else if decide (1 ≤ (diff2Of nums).length) &&
        (diff2Of nums).dedup.length == 1 then
      toString (last + ((diffsOf nums).getLast?.getD 0 + (diff2Of nums).headI))
    else toString (last + last2)

/-- `solve_logic(question)`. -/
def solve_logic (q : String) : String := solve_logic_core (extractNums q)

/-- `solve_logic_core` with the final fallback replaced by `none`: the
value it returns whenever one of the four pattern rules fires. -/
def solve_logic_rules (nums : List ℤ) : Option String :=
  if nums.length < 3 then some "0"
  else
    let last := nums.getLast?.getD 0
    let last2 := nums.dropLast.getLast?.getD 0
    if fibAll nums then some (toString (last + last2))
    else if (diffsOf nums).dedup.length == 1 then
      some (toString (last + (diffsOf nums).headI))
    else if nums.dropLast.all (fun x => x != 0) &&
        ((ratiosOf nums).map round6).dedup.length == 1 then
      some (toString (pyTrunc ((last : ℚ) * (ratiosOf nums).headI)))
    else if decide (1 ≤ (diff2Of nums).length) &&
        (diff2Of nums).dedup.length == 1 then
      some (toString (last + ((diffsOf nums).getLast?.getD 0 + (diff2Of nums).headI)))
    else none

/- The claim-level formulations of the four sequence rules, and their
equivalence with the code's guards. -/

/-- Every term from the third onward is the sum of its two predecessors. -/
def fibSpec (nums : List ℤ) : Prop :=
  ∀ i < nums.length - 2, nums.getD (i + 2) 0 = nums.getD (i + 1) 0 + nums.getD i 0

/-- All first differences are equal. -/
def arithSpec (nums : List ℤ) : Prop :=
  ∀ x ∈ diffsOf nums, ∀ y ∈ diffsOf nums, x = y

/-- No divisor term is zero and all consecutive ratios agree after
rounding to 6 decimal places. -/
def geoSpec (nums : List ℤ) : Prop :=
  (∀ x ∈ nums.dropLast, x ≠ 0) ∧
    ∀ r1 ∈ (ratiosOf nums).map round6, ∀ r2 ∈ (ratiosOf nums).map round6, r1 = r2

/-- All second differences are equal. -/
def quadSpec (nums : List ℤ) : Prop :=
  ∀ x ∈ diff2Of nums, ∀ y ∈ diff2Of nums, x = y

instance (nums : List ℤ) : Decidable (fibSpec nums) := by
  unfold fibSpec; infer_instance

instance (nums : List ℤ) : Decidable (arithSpec nums) := by
  unfold arithSpec; infer_instance

instance (nums : List ℤ) : Decidable (geoSpec nums) := by
  unfold geoSpec; infer_instance

instance (nums : List ℤ) : Decidable (quadSpec nums) := by
  unfold quadSpec; infer_instance

theorem nodup_all_eq_singleton {α : Type} (d : List α) (a : α)
    (hnd : d.Nodup) (hmem : a ∈ d) (hall : ∀ x ∈ d, x = a) : d = [a] := by
  cases d with
  | nil => cases hmem
  | cons x xs =>
    have hx : x = a := hall x (List.mem_cons_self x xs)
    subst hx
    cases xs with
    | nil => rfl
    | cons y ys =>
      have hy : y = x := hall y (by simp)
      have hnotmem := (List.nodup_cons.mp hnd).1
      exact absurd (by simp [hy.symm] : x ∈ y :: ys) hnotmem

/-- `len(set(l)) == 1` says exactly that the nonempty list `l` is
constant. -/
theorem dedup_length_one_iff {α : Type} [DecidableEq α] (l : List α)
    (h : l ≠ []) : l.dedup.length = 1 ↔ ∀ x ∈ l, ∀ y ∈ l, x = y := by
  constructor
  · intro h1 x hx y hy
    obtain ⟨a, ha⟩ := List.length_eq_one.mp h1
    have hxa : x = a := by
      have := List.mem_dedup.mpr hx
      rw [ha] at this
      simpa using this
    have hya : y = a := by
      have := List.mem_dedup.mpr hy
      rw [ha] at this
      simpa using this
    rw [hxa, hya]
  · intro hall
    obtain ⟨c, l', rfl⟩ := List.exists_cons_of_ne_nil h
    have hmemc : c ∈ (c :: l').dedup :=
      List.mem_dedup.mpr (List.mem_cons_self c l')
    have hsub : ∀ x ∈ (c :: l').dedup, x = c := fun x hx =>
      hall x (List.mem_dedup.mp hx) c (List.mem_cons_self c l')
    have hsingle : (c :: l').dedup = [c] :=
      nodup_all_eq_singleton _ c (List.nodup_dedup _) hmemc hsub
    simp [hsingle]

/-- The code's Fibonacci guard agrees with the claim's formulation. -/
theorem fibAll_iff : ∀ nums : List ℤ, fibAll nums = true ↔ fibSpec nums
  | [] => by simp [fibAll, fibSpec]
  | [a] => by simp [fibAll, fibSpec]
  | [a, b] => by simp [fibAll, fibSpec]
  | a :: b :: c :: rest => by
    have hstep : fibAll (a :: b :: c :: rest) =
        ((c == b + a) && fibAll (b :: c :: rest)) := rfl
    rw [hstep, Bool.and_eq_true, beq_iff_eq, fibAll_iff (b :: c :: rest)]
    unfold fibSpec
    constructor
    · rintro ⟨hc, hrest⟩ i hi
      cases i with
      | zero => simpa using hc
      | succ j =>
        have hj : j < (b :: c :: rest).length - 2 := by
          simp only [List.length_cons] at hi ⊢
          omega
        simpa using hrest j hj
    · intro hall
      constructor
      · simpa using hall 0 (by simp only [List.length_cons]; omega)
      · intro j hj
        have hj' : j + 1 < (a :: b :: c :: rest).length - 2 := by
          simp only [List.length_cons] at hj ⊢
          omega
        simpa using hall (j + 1) hj'

theorem length_diffsOf (nums : List ℤ) :
    (diffsOf nums).length = nums.length - 1 := by
  unfold diffsOf
  rw [List.length_zipWith, List.length_drop]
  omega

theorem length_ratiosOf (nums : List ℤ) :
    (ratiosOf nums).length = nums.length - 1 := by
  unfold ratiosOf
  rw [List.length_zipWith, List.length_drop]
  omega

theorem length_diff2Of (nums : List ℤ) :
    (diff2Of nums).length = nums.length - 2 := by
  unfold diff2Of
  rw [List.length_zipWith, List.length_drop, length_diffsOf]
  omega

theorem diffsOf_ne_nil (nums : List ℤ) (h3 : 3 ≤ nums.length) :
    diffsOf nums ≠ [] := by
  intro h0
  have := length_diffsOf nums
  rw [h0] at this
  simp at this
  omega

theorem ratios_map_ne_nil (nums : List ℤ) (h3 : 3 ≤ nums.length) :
    (ratiosOf nums).map round6 ≠ [] := by
  intro h0
  have := congrArg List.length h0
  simp only [List.length_map, length_ratiosOf, List.length_nil] at this
  omega

theorem diff2Of_ne_nil (nums : List ℤ) (h3 : 3 ≤ nums.length) :
    diff2Of nums ≠ [] := by
  intro h0
  have := length_diff2Of nums
  rw [h0] at this
  simp at this
  omega

/-- C7: a sequence satisfying both the Fibonacci-like and the arithmetic
relation resolves via the Fibonacci rule, which is tested first; `[1,2,3]`
satisfies both, the answer is the Fibonacci value `"5"`, and the
arithmetic rule would have given `"4"`. -/
theorem c7_theorem :
    (∀ nums : List ℤ, 3 ≤ nums.length → fibSpec nums → arithSpec nums →
      solve_logic_core nums =
        toString (nums.getLast?.getD 0 + nums.dropLast.getLast?.getD 0))
    ∧ (fibSpec [1, 2, 3] ∧ arithSpec [1, 2, 3])
    ∧ solve_logic_core [1, 2, 3] = "5"
    ∧ toString ((3 : ℤ) + (diffsOf [1, 2, 3]).headI) = "4" := by
  refine ⟨?_, by decide, by with_unfolding_all rfl, by with_unfolding_all rfl⟩
  intro nums h3 hfib _
  have hfibb : fibAll nums = true := (fibAll_iff nums).mpr hfib
  simp only [solve_logic_core]
  rw [if_neg (by omega : ¬nums.length < 3)]
  simp [hfibb]

/-- C7 witness: the theorem applied to `[1, 2, 3]`. -/
theorem c7_witness : solve_logic_core [1, 2, 3] = "5" := by
  have h := c7_theorem.1 [1, 2, 3] (by decide) (by decide) (by decide)
  rw [h]
  with_unfolding_all rfl

/-- The dictionary `COMMON_WORDS`, in the source's exact order (the entry
`"FREEDOM"` appears twice, as in the source). -/
def COMMON_WORDS : List String := [
  "CRYSTAL", "HARMONY", "MYSTERY", "JOURNEY", "BALANCE", "PERFECT",
  "WEATHER", "RAINBOW", "DIAMOND", "SCIENCE", "HISTORY", "FANTASY",
  "GALLERY", "KITCHEN", "ORGANIC", "PREMIUM", "REALITY", "THERAPY",
  "VICTORY", "WESTERN", "ABILITY", "ANCIENT", "BILLION", "CABINET",
  "CAPTAIN", "CENTRAL", "CHAPTER", "CLIMATE", "COLLEGE", "COMFORT",
  "COMPANY", "CONCEPT", "CONDUCT", "CONFIRM", "CONNECT", "CONTENT",
  "CONTEXT", "CONTROL", "CONVERT", "CORRECT", "COUNTRY", "COURAGE",
  "CULTURE", "CURRENT", "DECIMAL", "DEFAULT", "DEFENSE", "DELIVER",
  "DIGITAL", "DISPLAY", "EMOTION", "EVENING", "EXAMINE", "EXAMPLE",
  "EXCITED", "EXPLAIN", "EXPRESS", "EXTREME", "FASHION", "FEATURE",
  "FICTION", "FINANCE", "FOREIGN", "FORMULA", "FORWARD", "FREEDOM",
  "GENUINE", "GRAPHIC", "HABITAT", "HEALING", "HEALTHY", "HELPFUL",
  "HOLIDAY", "IMAGINE", "IMPROVE", "INITIAL", "INSTALL", "JUSTICE",
  "KINGDOM", "LEADING", "LEATHER", "LIBRARY", "LIMITED", "MACHINE",
  "MASSIVE", "MEETING", "MINERAL", "MISSING", "MONSTER", "MORNING",
  "MUSICAL", "NATURAL", "NETWORK", "NEUTRAL", "NOTHING", "NUCLEAR",
  "OPINION", "OUTLINE", "OUTSIDE", "OVERALL", "PACKAGE", "PARTIAL",
  "PARTNER", "PASSAGE", "PASSIVE", "PATIENT", "PATTERN", "PAYMENT",
  "PENALTY", "PENSION", "PLASTIC", "POINTED", "POPULAR", "PORTION",
  "PRIMARY", "PRINTER", "PRIVATE", "PROBLEM", "PRODUCT", "PROGRAM",
  "PROJECT", "PROMISE", "PROTECT", "PROTEIN", "PROTEST", "PURPOSE",
  "QUALIFY", "QUARTER", "RADICAL", "RECOVER", "REGULAR", "RELATED",
  "RELEASE", "REMOVAL", "REPLACE", "REQUIRE", "RESERVE", "RESOLVE",
  "RESPECT", "RESTORE", "ROUTINE", "RUNNING", "SECTION", "SHELTER",
  "SIMILAR", "SOCIETY", "SOMEONE", "SPECIAL", "STATION", "STOMACH",
  "STORAGE", "STRANGE", "STUDENT", "SUBJECT", "SUMMARY", "SUPPORT",
  "SURFACE", "SURGERY", "SURVIVE", "TEACHER", "THEATRE", "THERMAL",
  "THOUGHT", "TONIGHT", "TOURISM", "TROUBLE", "TURNING", "TYPICAL",
  "UPDATED", "UTILITY", "VARIETY", "VEHICLE", "VENTURE", "VERSION",
  "VILLAGE", "VIOLENT", "VISIBLE", "WARNING", "WARRIOR", "WEBSITE",
  "WEDDING", "WEEKEND", "WELCOME", "WELFARE", "WILLING", "WINNING",
  "WITHOUT", "WITNESS", "WORKING", "WRITING", "YOUNGER", "THUNDER",
  "HUNDRED", "HUNTING", "HUSBAND", "LECTURE", "MARTIAL", "MILLION",
  "OBSCURE", "PREDICT", "QUANTUM", "REBUILD", "SCHOLAR", "WORSHIP",
  "ZEALOUS", "BLANKET", "BROWSER", "CENTURY", "CHICKEN", "COMPLEX",
  "COUNTER", "DOLPHIN", "ENDLESS", "FIFTEEN", "FREEDOM", "GORILLA"
]

/-- Regex `\w` on ASCII characters. -/
def wordChar (c : Char) : Bool := c.isAlphanum || c = '_'

/-- The backtracking of `Unscramble.*?:\s*(\w+)` after the literal
`"Unscramble"`: candidate colons are tried left to right (`.*?` is lazy
and cannot cross a newline); after a colon, `\s*` greedily takes
whitespace and `(\w+)` must take at least one word character — whitespace
and word characters are disjoint, so no further backtracking occurs. -/
def tryColons : List Char → Option (List Char)
  | [] => none
  | c :: cs =>
    if c = ':' then
      let tok := (cs.dropWhile pyIsSpace).takeWhile wordChar
      if !tok.isEmpty then some tok else tryColons cs
    else if c = '\n' then none
    else tryColons cs

/-- `re.search(r'Unscramble.*?:\s*(\w+)', question)`: leftmost occurrence
of the literal `"Unscramble"` from which some colon yields a match. -/
def extractScramble : List Char → Option (List Char)
  | [] => none
  | c :: cs =>
    if "Unscramble".data.isPrefixOf (c :: cs) then
      match tryColons ((c :: cs).drop 10) with
      | some tok => some tok
      | none => extractScramble cs
    else extractScramble cs

/-- Python `sorted` on a list of characters. -/
def pySorted (l : List Char) : List Char := l.insertionSort (· ≤ ·)

/-- `solve_word(question)`: extract the scrambled token, uppercase it
(ASCII `str.upper`), and return the first dictionary word of equal length
whose sorted characters agree; `"UNKNOWN"` when nothing matches or the
pattern does not match at all. -/
def solve_word (q : String) : String :=
  match extractScramble q.data with
  | none => "UNKNOWN"
  | some tok =>
    let scrambled := tok.map Char.toUpper
    match COMMON_WORDS.find? (fun w =>
        w.length == scrambled.length && pySorted w.data == pySorted scrambled) with
    | some w => w
    | none => "UNKNOWN"

/-- Modelled from the spec: the first dictionary entry, in the
dictionary's enumeration order, whose length equals the scrambled string's
length and whose multiset of letters equals the scrambled string's
multiset. -/
def firstAnagram (s : List Char) : Option String :=
  COMMON_WORDS.find? (fun w =>
    decide (w.data.length = s.length ∧ (w.data : Multiset Char) = (s : Multiset Char)))

/-- Equality of Python-sorted character lists is exactly equality of the
letter multisets. -/
theorem pySorted_eq_iff (a b : List Char) :
    pySorted a = pySorted b ↔ a.Perm b := by
  constructor
  · intro h
    unfold pySorted at h
    have h1 := List.perm_insertionSort (fun x1 x2 => x1 ≤ x2) a
    have h2 := List.perm_insertionSort (fun x1 x2 => x1 ≤ x2) b
    rw [h] at h1
    exact h1.symm.trans h2
  · intro h
    exact List.eq_of_perm_of_sorted
      ((List.perm_insertionSort _ a).trans
        (h.trans (List.perm_insertionSort _ b).symm))
      (List.sorted_insertionSort _ a)
      (List.sorted_insertionSort _ b)

/-- C3: whenever a scrambled token is extracted from the question (via
the `Unscramble ...: <token>` pattern, uppercased), `solve_word` returns
the first entry of the fixed dictionary, in enumeration order, whose
length equals the token's and whose letter multiset equals the token's,
and `"UNKNOWN"` when no entry matches; `"UNKNOWN"` is also returned when
the extraction pattern does not match the question at all.  The spec's
example `"TSCYRLA" ↦ "CRYSTAL"` is checked. -/
theorem c3_theorem :
    (∀ (q : String) (tok : List Char), extractScramble q.data = some tok →
      solve_word q = (firstAnagram (tok.map Char.toUpper)).getD "UNKNOWN")
    ∧ (∀ q : String, extractScramble q.data = none → solve_word q = "UNKNOWN")
    ∧ solve_word "Unscramble the letters: TSCYRLA" = "CRYSTAL"
    ∧ solve_word "Unscramble this: QQQQQQQ" = "UNKNOWN" := by
  refine ⟨?_, ?_, by with_unfolding_all rfl, by with_unfolding_all rfl⟩
  · intro q tok hext
    have hfind : COMMON_WORDS.find? (fun w =>
        w.length == (tok.map Char.toUpper).length &&
          pySorted w.data == pySorted (tok.map Char.toUpper)) =
        firstAnagram (tok.map Char.toUpper) := by
      unfold firstAnagram
      congr 1
      funext w
      rw [Bool.eq_iff_iff]
      simp only [Bool.and_eq_true, beq_iff_eq, decide_eq_true_eq,
        Multiset.coe_eq_coe, ← pySorted_eq_iff]
      exact Iff.rfl
    unfold solve_word
    rw [hext]
    show (match COMMON_WORDS.find? (fun w =>
        w.length == (tok.map Char.toUpper).length &&
          pySorted w.data == pySorted (tok.map Char.toUpper)) with
      | some w => w
      | none => "UNKNOWN") = (firstAnagram (tok.map Char.toUpper)).getD "UNKNOWN"
    rw [hfind]
    cases firstAnagram (tok.map Char.toUpper) <;> rfl
  · intro q hext
    unfold solve_word
    rw [hext]

/-- C3 witness: the theorem applied to the `"TSCYRLA"` question. -/
theorem c3_witness : solve_word "Unscramble the letters: TSCYRLA" = "CRYSTAL" := by
  have h := c3_theorem.1 "Unscramble the letters: TSCYRLA" "TSCYRLA".data
    (by with_unfolding_all rfl)
  rw [h]
  with_unfolding_all rfl

/- The `Puzzle` record and the dispatcher. -/

/-- An entry of a puzzle's options list: either a structured choice (a
dict, whose `id` and `text` keys may each be present or absent) or a bare
value (submitted through `str(...)`; bare values are modelled by their
string form). -/
inductive OptItem where
  | obj (id : Option String) (text : Option String) : OptItem
  | bare (s : String) : OptItem
  deriving DecidableEq

/-- The puzzle record: `puzzle.get("game_type", "")`,
`puzzle.get("question", "")` and `puzzle.get("options", [])` — a missing
`options` key is `none`. -/
structure Puzzle where
  game_type : String
  question : String
  options : Option (List OptItem)
  deriving DecidableEq

/-- `solve_trivia(puzzle)`: first option's `id` (falling back to its
`text`, then to `"A"`) when the option is a dict, its string form when it
is a bare value, and `"A"` when the options list is empty or absent. -/
def solve_trivia (p : Puzzle) : String :=
  match p.options.getD [] with
  | [] => "A"
  | o :: _ =>
    match o with
    | OptItem.obj id text => id.getD (text.getD "A")
    | OptItem.bare s => s

/-- `solve_puzzle(puzzle)`: dispatch on the declared category; any
unrecognized category yields the fixed literal `"42"`.  Every branch is a
total function, so the dispatcher always terminates with a string. -/
def solve_puzzle (p : Puzzle) : String :=
  if p.game_type = "math" then solve_math p.question
  else if p.game_type = "word" then solve_word p.question
  else if p.game_type = "logic" then solve_logic p.question
  else if p.game_type = "trivia" then solve_trivia p
  else "42"

/-- C9: the selection solver returns the `id` of the first option when it
is a structured pair, the string form of the first option when it is a
bare value, and the fixed literal `"A"` for an empty or absent options
list; `[{id:"B",text:"Paris"}]` yields `"B"` and `[]` yields `"A"`. -/
theorem c9_theorem :
    (∀ (p : Puzzle) (i : String) (t : Option String) (rest : List OptItem),
      p.options = some (OptItem.obj (some i) t :: rest) → solve_trivia p = i)
    ∧ (∀ (p : Puzzle) (s : String) (rest : List OptItem),
      p.options = some (OptItem.bare s :: rest) → solve_trivia p = s)
    ∧ (∀ p : Puzzle, p.options = none ∨ p.options = some [] →
      solve_trivia p = "A")
    ∧ solve_trivia ⟨"trivia", "", some [OptItem.obj (some "B") (some "Paris")]⟩ = "B"
    ∧ solve_trivia ⟨"trivia", "", some []⟩ = "A" := by
  refine ⟨?_, ?_, ?_, rfl, rfl⟩
  · intro p i t rest h
    unfold solve_trivia
    rw [h]
    rfl
  · intro p s rest h
    unfold solve_trivia
    rw [h]
    rfl
  · intro p h
    unfold solve_trivia
    rcases h with h | h <;> rw [h] <;> rfl

/-- C9 witness: the theorem applied to the two example option lists. -/
theorem c9_witness :
    solve_trivia ⟨"trivia", "Capital of France?",
      some [OptItem.obj (some "B") (some "Paris")]⟩ = "B" := by
  exact c9_theorem.1 ⟨"trivia", "Capital of France?",
    some [OptItem.obj (some "B") (some "Paris")]⟩ "B" (some "Paris") [] rfl
